import Mathlib

/-!
Verification of the MiningPlacementStats plugin
(src/mining_placement_stats.py) against its specification.

The embedding models the core subsystem: name resolution
(`get_player_name`), stat extraction, the scan operation
(`update_stats_for_all_players`), leaderboard filtering
(`show_mining_stats` / `show_placement_stats`) and snapshot persistence
(`save_stats` / `load_stats`).

Python dictionaries are modelled as association lists in insertion
order (`dictInsert` reproduces `d[k] = v`: update in place when the key
exists, append otherwise).  File-system state (the stats directory, the
usercache, the whitelist) is passed explicitly.  Strings are Lean
`String`s; Python truthiness of a string is the test `≠ ""`.
-/

namespace MPS

/-- Char-wise lowercasing, modelling Python `str.lower()`. -/
def strLower (s : String) : String := ⟨s.data.map Char.toLower⟩

/-- Substring test on character lists, modelling Python `pat in s`. -/
def containsSub : List Char → List Char → Bool
  | [], pat => pat.isEmpty
  | c :: t, pat => pat.isPrefixOf (c :: t) || containsSub t pat

/-- Python `pat in s` on strings. -/
def strContains (s pat : String) : Bool := containsSub s.data pat.data

/-- Python `s[:n]`. -/
def strTake (s : String) (n : Nat) : String := ⟨s.data.take n⟩

/-- Python `s.endswith(suffix)`. -/
def strEndsWith (s suffix : String) : Bool := suffix.data.isSuffixOf s.data

/-- `uuid.replace('-', '').lower()` from `get_player_name` line 355. -/
def cleanUuid (u : String) : String :=
  ⟨(u.data.filter (fun c => c != '-')).map Char.toLower⟩

/-- `filename.split('.')[0]` from line 262: everything before the first dot. -/
def uuidOfFilename (fn : String) : String := ⟨fn.data.takeWhile (fun c => c != '.')⟩

/-- The fallback display name `f"Player_{uuid[:8]}"` (lines 288, 387, 390). -/
def fallbackName (uuid : String) : String := "Player_" ++ strTake uuid 8

/-- One entry of `usercache.json`; an absent `name` field is modelled by `""`
(Python falsiness of `entry.get('name')`). -/
structure UserCacheEntry where
  uuid : String
  name : String

/-- The scan over usercache entries in `get_player_name` (lines 367-384):
the first entry whose cleaned uuid matches and whose name is truthy is
used; entries with a matching uuid but falsy name are passed over. -/
def lookupName : List UserCacheEntry → String → Option String
  | [], _ => none
  | e :: rest, cu =>
    if cleanUuid e.uuid = cu ∧ e.name ≠ "" then some e.name else lookupName rest cu

/-- `get_player_name` (lines 341-390).  The whitelist is the set of allow-listed
display names, modelled as a list; the usercache is the concatenation of the
entries of the existing usercache files, in the order the code scans them. -/
def get_player_name (wl : List String) (cache : List UserCacheEntry)
    (uuid : String) : String :=
  match lookupName cache (cleanUuid uuid) with
  | some name =>
    if name ∈ wl then name
    else
      match wl.find? (fun w => decide (strLower w = strLower name)) with
      | some w => w
      | none => name
  | none => fallbackName uuid

/-- One player's parsed statistics record: the `minecraft:mined` and
`minecraft:used` categories as (type identifier, count) lists.  A category
missing from the JSON is the empty list (the code then contributes 0). -/
structure StatRecord where
  mined : List (String × Nat)
  used : List (String × Nat)
deriving DecidableEq

/-- The hardcoded exclusion substrings of line 281. -/
def excludedSubstrings : List String :=
  ["bucket", "sword", "axe", "shovel", "hoe", "pickaxe"]

/-- The block-vs-item filter of line 281: the identifier has a namespace
separator and none of the excluded substrings. -/
def isBlockEntry (blockId : String) : Bool :=
  strContains blockId ":" && !(excludedSubstrings.any (fun x => strContains blockId x))

/-- The mined-count accumulation loop (lines 271-274). -/
def mineCount (r : StatRecord) : Nat :=
  r.mined.foldl (fun acc p => acc + p.2) 0

/-- The placed-count accumulation loop (lines 277-282). -/
def placeCount (r : StatRecord) : Nat :=
  r.used.foldl (fun acc p => if isBlockEntry p.1 then acc + p.2 else acc) 0

/-- A Python dict of name → count, as an association list in insertion order. -/
abbrev StatsMap := List (String × Nat)

/-- Python `d[k] = v`: update in place if present, append otherwise. -/
def dictInsert (m : StatsMap) (k : String) (v : Nat) : StatsMap :=
  match m with
  | [] => [(k, v)]
  | (k', v') :: rest =>
    if k' = k then (k', v) :: rest else (k', v') :: dictInsert rest k v

/-- Python `d.get(k)` (no default). -/
def dictGet? (m : StatsMap) (k : String) : Option Nat :=
  match m with
  | [] => none
  | (k', v) :: rest => if k' = k then some v else dictGet? rest k

/-- Python `d.get(k, -1)` used for the old-value sentinel (lines 291-292). -/
def dictGetSentinel (m : StatsMap) (k : String) : Int :=
  match dictGet? m k with
  | some v => (v : Int)
  | none => -1

/-- The name the aggregator stores for a record (lines 285-288): the resolver's
answer, with the fallback label substituted if that answer is falsy. -/
def aggregatorName (wl : List String) (cache : List UserCacheEntry)
    (uuid : String) : String :=
  let n := get_player_name wl cache uuid
  if n = "" then fallbackName uuid else n

/-- The stored name for a record file. -/
def resolvedName (wl : List String) (cache : List UserCacheEntry)
    (fn : String) : String :=
  aggregatorName wl cache (uuidOfFilename fn)

/-- A file of the stats directory: its name and its parse/extraction outcome
(`none` models a record whose processing raises, caught at lines 303-305). -/
abbrev FileEntry := String × Option StatRecord

/-- The per-file body of the scan loop (lines 256-301), acting on the state
(working mining map, working placement map, updated counter).  Non-`.json`
files are skipped; a failing record leaves the state unchanged. -/
def processFile (wl : List String) (cache : List UserCacheEntry)
    (oldM oldP : StatsMap) (st : StatsMap × StatsMap × Nat)
    (f : FileEntry) : StatsMap × StatsMap × Nat :=
  if strEndsWith f.1 ".json" then
    match f.2 with
    | none => st
    | some r =>
      let mc := mineCount r
      let pc := placeCount r
      let name := resolvedName wl cache f.1
      let oldMine := dictGetSentinel oldM name
      let oldPlace := dictGetSentinel oldP name
      (dictInsert st.1 name mc,
       dictInsert st.2.1 name pc,
       if oldMine ≠ (mc : Int) ∨ oldPlace ≠ (pc : Int) then st.2.2 + 1 else st.2.2)
  else st

/-- Result of one scan: the two replaced snapshot maps and the return value. -/
structure ScanResult where
  mining : StatsMap
  placement : StatsMap
  updatedCount : Nat
deriving DecidableEq

/-- `update_stats_for_all_players` (lines 222-339).  `statsDir` is `none` when
the stats directory does not exist (line 247), otherwise the directory listing
with each file's parse outcome.  `mining`/`placement` are the snapshot maps
before the call; the code copies them (lines 235-236), clears the live maps
(lines 239-240), and rebuilds.  The whitelist cross-check (lines 314-334) and
`save_stats` only log/persist and do not alter the in-memory result. -/
def update_stats_for_all_players (wl : List String) (cache : List UserCacheEntry)
    (statsDir : Option (List FileEntry)) (mining placement : StatsMap) :
    ScanResult :=
  match statsDir with
  | none => ⟨[], [], 0⟩
  | some files =>
    let r := files.foldl (processFile wl cache mining placement) ([], [], 0)
    ⟨r.1, r.2.1, r.2.2⟩

/-- A file the scan actually processes: a `.json` file whose record parses. -/
def wfFile (f : FileEntry) : Bool := strEndsWith f.1 ".json" && f.2.isSome

/-- The stored names of the files a scan processes, in processing order. -/
def fileNames (wl : List String) (cache : List UserCacheEntry)
    (files : List FileEntry) : List String :=
  (files.filter wfFile).map (fun f => resolvedName wl cache f.1)

/-- The per-entry body of the display filter loop (lines 404-416 / 439-451):
exact whitelist membership keeps the snapshot key, otherwise the first
case-insensitive whitelist match stores under the whitelist's name. -/
def filterStatsStep (wl : List String) (acc : StatsMap) (e : String × Nat) :
    StatsMap :=
  if e.1 ∈ wl then dictInsert acc e.1 e.2
  else
    match wl.find? (fun w => decide (strLower w = strLower e.1)) with
    | some w => dictInsert acc w e.2
    | none => acc

/-- The `filtered_stats` dict built by `show_mining_stats`/`show_placement_stats`. -/
def filterStats (wl : List String) (stats : StatsMap) : StatsMap :=
  stats.foldl (filterStatsStep wl) []

/-- Stable insertion keeping descending count order, placing the new element
after all elements with a count ≥ its own. -/
def insertDesc (x : String × Nat) : List (String × Nat) → List (String × Nat)
  | [] => [x]
  | y :: ys => if y.2 < x.2 then x :: y :: ys else y :: insertDesc x ys

/-- `sorted(items, key=lambda x: x[1], reverse=True)`: a stable descending
sort by count. -/
def sortDesc (l : StatsMap) : StatsMap := l.foldl (fun acc x => insertDesc x acc) []

/-- What a display command emits: either the no-data message or ranked rows. -/
inductive DisplayOutput where
  | noData : DisplayOutput
  | board : List (Nat × String × Nat) → DisplayOutput
deriving DecidableEq

/-- Shared leaderboard rendering: filter, no-data check, sort, truncate, rank. -/
def renderBoard (wl : List String) (topCount : Nat) (stats : StatsMap) :
    DisplayOutput :=
  let filtered := filterStats wl stats
  if filtered = [] then DisplayOutput.noData
  else
    DisplayOutput.board
      (((sortDesc filtered).take topCount).enum.map (fun p => (p.1 + 1, p.2)))

/-- `show_mining_stats` (lines 392-427), on the mining snapshot. -/
def show_mining_stats (wl : List String) (topCount : Nat) (mining : StatsMap) :
    DisplayOutput :=
  renderBoard wl topCount mining

/-- `show_placement_stats` (lines 429-462), on the placement snapshot. -/
def show_placement_stats (wl : List String) (topCount : Nat)
    (placement : StatsMap) : DisplayOutput :=
  renderBoard wl topCount placement

/-- The JSON object written by `save_stats` (lines 89-93). -/
def save_stats (mining placement : StatsMap) : List (String × StatsMap) :=
  [("mining", mining), ("placement", placement)]

/-- Field lookup in the stored JSON object. -/
def lookupField : List (String × StatsMap) → String → Option StatsMap
  | [], _ => none
  | (k, v) :: rest, key => if k = key then some v else lookupField rest key

/-- `load_stats` (lines 66-80): `data.get('mining', {})` and
`data.get('placement', {})`; a missing file leaves the startup-empty maps. -/
def load_stats (file : Option (List (String × StatsMap))) : StatsMap × StatsMap :=
  match file with
  | none => ([], [])
  | some data => ((lookupField data "mining").getD [], (lookupField data "placement").getD [])

theorem strLower_empty : strLower "" = "" := rfl

theorem data_empty : ("" : String).data = [] := rfl

theorem strLower_data (s : String) : (strLower s).data = s.data.map Char.toLower := rfl

theorem strLower_eq_empty_iff (s : String) : strLower s = "" ↔ s = "" := by
  constructor
  · intro h
    apply String.ext
    have hd := congrArg String.data h
    rw [strLower_data, data_empty] at hd
    rw [data_empty]
    exact List.map_eq_nil_iff.mp hd
  · intro h
    rw [h]
    exact strLower_empty

theorem fallbackName_ne_empty (u : String) : fallbackName u ≠ "" := by
  intro h
  have hd : (fallbackName u).data
      = 'P' :: 'l' :: 'a' :: 'y' :: 'e' :: 'r' :: '_' :: (strTake u 8).data := rfl
  rw [h] at hd
  exact List.noConfusion hd

theorem lookupName_ne_empty {cache : List UserCacheEntry} {cu n : String}
    (h : lookupName cache cu = some n) : n ≠ "" := by
  induction cache with
  | nil => simp [lookupName] at h
  | cons e rest ih =>
    simp only [lookupName] at h
    split at h
    · next hc => rw [Option.some_inj] at h; rw [← h]; exact hc.2
    · exact ih h

theorem get_player_name_ne_empty (wl : List String) (cache : List UserCacheEntry)
    (uuid : String) : get_player_name wl cache uuid ≠ "" := by
  unfold get_player_name
  cases hl : lookupName cache (cleanUuid uuid) with
  | none => exact fallbackName_ne_empty uuid
  | some name =>
    have hn : name ≠ "" := lookupName_ne_empty hl
    by_cases hmem : name ∈ wl
    · simp only [if_pos hmem]; exact hn
    · simp only [if_neg hmem]
      cases hf : wl.find? (fun w => decide (strLower w = strLower name)) with
      | none => exact hn
      | some w =>
        have hp := List.find?_some hf
        have heq : strLower w = strLower name := of_decide_eq_true hp
        show w ≠ ""
        intro hw
        apply hn
        rw [← strLower_eq_empty_iff]
        rw [← heq, hw]
        exact strLower_empty

theorem dictGet?_dictInsert_self (m : StatsMap) (k : String) (v : Nat) :
    dictGet? (dictInsert m k v) k = some v := by
  induction m with
  | nil => simp [dictInsert, dictGet?]
  | cons h t ih =>
    obtain ⟨k', v'⟩ := h
    by_cases hk : k' = k
    · simp [dictInsert, dictGet?, hk]
    · simp [dictInsert, dictGet?, hk, ih]

theorem dictGet?_dictInsert_ne (m : StatsMap) {k q : String} (v : Nat)
    (hne : q ≠ k) : dictGet? (dictInsert m k v) q = dictGet? m q := by
  induction m with
  | nil => simp [dictInsert, dictGet?, Ne.symm hne]
  | cons h t ih =>
    obtain ⟨k', v'⟩ := h
    by_cases hk : k' = k
    · subst hk
      simp [dictInsert, dictGet?, Ne.symm hne]
    · simp [dictInsert, dictGet?, hk, ih]

theorem dictGet?_dictInsert_isSome {m : StatsMap} {q : String} (k : String)
    (v : Nat) (h : (dictGet? m q).isSome) :
    (dictGet? (dictInsert m k v) q).isSome := by
  by_cases hq : q = k
  · subst hq; simp [dictGet?_dictInsert_self]
  · rw [dictGet?_dictInsert_ne m v hq]; exact h

theorem keys_dictInsert_congr {m p : StatsMap} (k : String) (v w : Nat)
    (h : m.map Prod.fst = p.map Prod.fst) :
    (dictInsert m k v).map Prod.fst = (dictInsert p k w).map Prod.fst := by
  induction m generalizing p with
  | nil =>
    cases p with
    | nil => rfl
    | cons b s => simp at h
  | cons a t ih =>
    obtain ⟨k1, v1⟩ := a
    cases p with
    | nil => simp at h
    | cons b s =>
      obtain ⟨k2, w2⟩ := b
      simp only [List.map_cons, List.cons.injEq] at h
      obtain ⟨hk, hts⟩ := h
      subst hk
      by_cases hkk : k1 = k
      · simp [dictInsert, hkk, hts]
      · simp [dictInsert, hkk, ih hts]

theorem mem_keys_iff (m : StatsMap) (n : String) :
    n ∈ m.map Prod.fst ↔ ∃ c, (n, c) ∈ m := by
  constructor
  · intro h
    obtain ⟨⟨a, b⟩, hab, hfst⟩ := List.mem_map.mp h
    exact ⟨b, by rwa [show a = n from hfst] at hab⟩
  · rintro ⟨c, hc⟩
    exact List.mem_map.mpr ⟨(n, c), hc, rfl⟩

theorem foldl_add_eq_sum (l : List (String × Nat)) (a : Nat) :
    l.foldl (fun acc p => acc + p.2) a = a + (l.map Prod.snd).sum := by
  induction l generalizing a with
  | nil => simp
  | cons x t ih => simp [ih, Nat.add_assoc]

theorem foldl_filter_add_eq_sum (q : String × Nat → Bool)
    (l : List (String × Nat)) (a : Nat) :
    l.foldl (fun acc p => if q p then acc + p.2 else acc) a
      = a + ((l.filter q).map Prod.snd).sum := by
  induction l generalizing a with
  | nil => simp
  | cons x t ih =>
    by_cases hq : q x
    · simp [hq, ih, Nat.add_assoc]
    · simp [hq, ih]

theorem processFile_not_json (wl : List String) (cache : List UserCacheEntry)
    (oM oP : StatsMap) (st : StatsMap × StatsMap × Nat) (f : FileEntry)
    (hj : ¬ strEndsWith f.1 ".json" = true) :
    processFile wl cache oM oP st f = st := by
  unfold processFile
  simp [hj]

theorem processFile_malformed (wl : List String) (cache : List UserCacheEntry)
    (oM oP : StatsMap) (st : StatsMap × StatsMap × Nat) (f : FileEntry)
    (hr : f.2 = none) : processFile wl cache oM oP st f = st := by
  unfold processFile
  rw [hr]
  by_cases hj : strEndsWith f.1 ".json" = true <;> simp [hj]

theorem processFile_some (wl : List String) (cache : List UserCacheEntry)
    (oM oP : StatsMap) (st : StatsMap × StatsMap × Nat) (f : FileEntry)
    (r : StatRecord) (hj : strEndsWith f.1 ".json" = true) (hr : f.2 = some r) :
    processFile wl cache oM oP st f =
      (dictInsert st.1 (resolvedName wl cache f.1) (mineCount r),
       dictInsert st.2.1 (resolvedName wl cache f.1) (placeCount r),
       if dictGetSentinel oM (resolvedName wl cache f.1) ≠ (mineCount r : Int) ∨
          dictGetSentinel oP (resolvedName wl cache f.1) ≠ (placeCount r : Int)
       then st.2.2 + 1 else st.2.2) := by
  unfold processFile
  rw [hr]
  simp [hj]

theorem foldl_skip_malformed (wl : List String) (cache : List UserCacheEntry)
    (oM oP : StatsMap) (files : List FileEntry) :
    ∀ st, files.foldl (processFile wl cache oM oP) st
      = (files.filter (fun f => f.2.isSome)).foldl (processFile wl cache oM oP) st := by
  induction files with
  | nil => intro st; rfl
  | cons f fs ih =>
    intro st
    cases hr : f.2 with
    | none =>
      rw [List.foldl_cons, processFile_malformed wl cache oM oP st f hr,
        List.filter_cons]
      simp only [hr, Option.isSome_none, if_false]
      exact ih st
    | some r =>
      rw [List.foldl_cons, List.filter_cons]
      simp only [hr, Option.isSome_some, if_true, List.foldl_cons]
      exact ih _

theorem foldl_lookup_mono (wl : List String) (cache : List UserCacheEntry)
    (oM oP : StatsMap) (files : List FileEntry) :
    ∀ (st : StatsMap × StatsMap × Nat) (k : String),
      ((dictGet? st.1 k).isSome →
        (dictGet? ((files.foldl (processFile wl cache oM oP) st).1) k).isSome) ∧
      ((dictGet? st.2.1 k).isSome →
        (dictGet? ((files.foldl (processFile wl cache oM oP) st).2.1) k).isSome) := by
  induction files with
  | nil => intro st k; exact ⟨id, id⟩
  | cons f fs ih =>
    intro st k
    simp only [List.foldl_cons]
    by_cases hj : strEndsWith f.1 ".json" = true
    · cases hr : f.2 with
      | none =>
        rw [processFile_malformed wl cache oM oP st f hr]
        exact ih st k
      | some r =>
        rw [processFile_some wl cache oM oP st f r hj hr]
        constructor
        · intro h
          exact (ih _ k).1 (dictGet?_dictInsert_isSome _ _ h)
        · intro h
          exact (ih _ k).2 (dictGet?_dictInsert_isSome _ _ h)
    · rw [processFile_not_json wl cache oM oP st f hj]
      exact ih st k

theorem foldl_mem_inserted (wl : List String) (cache : List UserCacheEntry)
    (oM oP : StatsMap) (files : List FileEntry) :
    ∀ st, ∀ f ∈ files, strEndsWith f.1 ".json" = true → ∀ r, f.2 = some r →
      (dictGet? ((files.foldl (processFile wl cache oM oP) st).1)
        (resolvedName wl cache f.1)).isSome ∧
      (dictGet? ((files.foldl (processFile wl cache oM oP) st).2.1)
        (resolvedName wl cache f.1)).isSome := by
  induction files with
  | nil => intro st f hf; exact absurd hf (List.not_mem_nil f)
  | cons g gs ih =>
    intro st f hf hj r hr
    simp only [List.foldl_cons]
    rcases List.mem_cons.mp hf with hfg | hfs
    · subst hfg
      rw [processFile_some wl cache oM oP st f r hj hr]
      constructor
      · apply (foldl_lookup_mono wl cache oM oP gs _ _).1
        rw [dictGet?_dictInsert_self]
        rfl
      · apply (foldl_lookup_mono wl cache oM oP gs _ _).2
        rw [dictGet?_dictInsert_self]
        rfl
    · exact ih _ f hfs hj r hr

theorem processFile_wl_congr {wl1 wl2 : List String} (cache : List UserCacheEntry)
    (oM oP : StatsMap) (st : StatsMap × StatsMap × Nat) (f : FileEntry)
    (h : resolvedName wl1 cache f.1 = resolvedName wl2 cache f.1) :
    processFile wl1 cache oM oP st f = processFile wl2 cache oM oP st f := by
  unfold processFile
  rw [h]

theorem foldl_wl_congr {wl1 wl2 : List String} (cache : List UserCacheEntry)
    (oM oP : StatsMap) (files : List FileEntry)
    (h : ∀ f ∈ files, resolvedName wl1 cache f.1 = resolvedName wl2 cache f.1) :
    ∀ st, files.foldl (processFile wl1 cache oM oP) st
        = files.foldl (processFile wl2 cache oM oP) st := by
  induction files with
  | nil => intro st; rfl
  | cons f fs ih =>
    intro st
    rw [List.foldl_cons, List.foldl_cons,
      processFile_wl_congr cache oM oP st f (h f (List.mem_cons_self f fs))]
    exact ih (fun g hg => h g (List.mem_cons_of_mem f hg)) _

theorem foldl_maps_indep (wl : List String) (cache : List UserCacheEntry)
    (oM oP oM' oP' : StatsMap) (files : List FileEntry) :
    ∀ (m p : StatsMap) (u u' : Nat),
      (files.foldl (processFile wl cache oM oP) (m, p, u)).1
        = (files.foldl (processFile wl cache oM' oP') (m, p, u')).1 ∧
      (files.foldl (processFile wl cache oM oP) (m, p, u)).2.1
        = (files.foldl (processFile wl cache oM' oP') (m, p, u')).2.1 := by
  induction files with
  | nil => intro m p u u'; exact ⟨rfl, rfl⟩
  | cons f fs ih =>
    intro m p u u'
    simp only [List.foldl_cons]
    by_cases hj : strEndsWith f.1 ".json" = true
    · cases hr : f.2 with
      | none =>
        rw [processFile_malformed wl cache oM oP _ f hr,
          processFile_malformed wl cache oM' oP' _ f hr]
        exact ih m p u u'
      | some r =>
        rw [processFile_some wl cache oM oP _ f r hj hr,
          processFile_some wl cache oM' oP' _ f r hj hr]
        exact ih _ _ _ _
    · rw [processFile_not_json wl cache oM oP _ f hj,
        processFile_not_json wl cache oM' oP' _ f hj]
      exact ih m p u u'

theorem foldl_keys_eq (wl : List String) (cache : List UserCacheEntry)
    (oM oP : StatsMap) (files : List FileEntry) :
    ∀ st : StatsMap × StatsMap × Nat, st.1.map Prod.fst = st.2.1.map Prod.fst →
      ((files.foldl (processFile wl cache oM oP) st).1).map Prod.fst
        = ((files.foldl (processFile wl cache oM oP) st).2.1).map Prod.fst := by
  induction files with
  | nil => intro st h; exact h
  | cons f fs ih =>
    intro st h
    simp only [List.foldl_cons]
    by_cases hj : strEndsWith f.1 ".json" = true
    · cases hr : f.2 with
      | none =>
        rw [processFile_malformed wl cache oM oP st f hr]
        exact ih st h
      | some r =>
        rw [processFile_some wl cache oM oP st f r hj hr]
        exact ih _ (keys_dictInsert_congr _ _ _ h)
    · rw [processFile_not_json wl cache oM oP st f hj]
      exact ih st h

theorem foldl_count_zero (wl : List String) (cache : List UserCacheEntry)
    (oM oP : StatsMap) (files : List FileEntry)
    (h : ∀ f ∈ files, ∀ r, f.2 = some r → strEndsWith f.1 ".json" = true →
        dictGetSentinel oM (resolvedName wl cache f.1) = (mineCount r : Int) ∧
        dictGetSentinel oP (resolvedName wl cache f.1) = (placeCount r : Int)) :
    ∀ st : StatsMap × StatsMap × Nat,
      (files.foldl (processFile wl cache oM oP) st).2.2 = st.2.2 := by
  induction files with
  | nil => intro st; rfl
  | cons f fs ih =>
    intro st
    simp only [List.foldl_cons]
    have ih' := ih (fun g hg r hr hj => h g (List.mem_cons_of_mem f hg) r hr hj)
    by_cases hj : strEndsWith f.1 ".json" = true
    · cases hr : f.2 with
      | none =>
        rw [processFile_malformed wl cache oM oP st f hr]
        exact ih' st
      | some r =>
        obtain ⟨h1, h2⟩ := h f (List.mem_cons_self f fs) r hr hj
        rw [processFile_some wl cache oM oP st f r hj hr, ih' _]
        simp [h1, h2]
    · rw [processFile_not_json wl cache oM oP st f hj]
      exact ih' st

theorem fileNames_cons (wl : List String) (cache : List UserCacheEntry)
    (f : FileEntry) (fs : List FileEntry) :
    fileNames wl cache (f :: fs)
      = if wfFile f then resolvedName wl cache f.1 :: fileNames wl cache fs
        else fileNames wl cache fs := by
  by_cases hw : wfFile f <;> simp [fileNames, List.filter_cons, hw]

theorem foldl_lookup_char (wl : List String) (cache : List UserCacheEntry)
    (oM oP : StatsMap) (files : List FileEntry)
    (hnd : (fileNames wl cache files).Nodup) :
    ∀ st : StatsMap × StatsMap × Nat,
      (∀ f ∈ files, ∀ r, f.2 = some r → strEndsWith f.1 ".json" = true →
        dictGet? ((files.foldl (processFile wl cache oM oP) st).1)
            (resolvedName wl cache f.1) = some (mineCount r) ∧
        dictGet? ((files.foldl (processFile wl cache oM oP) st).2.1)
            (resolvedName wl cache f.1) = some (placeCount r)) ∧
      (∀ k, k ∉ fileNames wl cache files →
        dictGet? ((files.foldl (processFile wl cache oM oP) st).1) k
            = dictGet? st.1 k ∧
        dictGet? ((files.foldl (processFile wl cache oM oP) st).2.1) k
            = dictGet? st.2.1 k) := by
  induction files with
  | nil =>
    intro st
    exact ⟨fun f hf => absurd hf (List.not_mem_nil f), fun k _ => ⟨rfl, rfl⟩⟩
  | cons g gs ih =>
    intro st
    by_cases hw : wfFile g = true
    · have hj : strEndsWith g.1 ".json" = true := by
        have := hw
        unfold wfFile at this
        exact (Bool.and_eq_true _ _).mp this |>.1
      have hs : g.2.isSome = true := by
        have := hw
        unfold wfFile at this
        exact (Bool.and_eq_true _ _).mp this |>.2
      obtain ⟨rg, hrg⟩ := Option.isSome_iff_exists.mp hs
      have hnames : fileNames wl cache (g :: gs)
          = resolvedName wl cache g.1 :: fileNames wl cache gs := by
        rw [fileNames_cons]
        simp [hw]
      rw [hnames] at hnd
      have hng : resolvedName wl cache g.1 ∉ fileNames wl cache gs :=
        (List.nodup_cons.mp hnd).1
      have ih' := ih (List.nodup_cons.mp hnd).2
      simp only [List.foldl_cons]
      rw [processFile_some wl cache oM oP st g rg hj hrg]
      constructor
      · intro f hf r hr hj'
        rcases List.mem_cons.mp hf with hfg | hfs
        · subst hfg
          have hrrg : r = rg := by
            rw [hr] at hrg
            exact (Option.some_inj.mp hrg)
          subst hrrg
          constructor
          · rw [((ih' _).2 (resolvedName wl cache f.1) hng).1]
            exact dictGet?_dictInsert_self _ _ _
          · rw [((ih' _).2 (resolvedName wl cache f.1) hng).2]
            exact dictGet?_dictInsert_self _ _ _
        · exact (ih' _).1 f hfs r hr hj'
      · intro k hk
        rw [hnames] at hk
        have hkg : k ≠ resolvedName wl cache g.1 := fun he => hk (he ▸ List.mem_cons_self _ _)
        have hkgs : k ∉ fileNames wl cache gs := fun he => hk (List.mem_cons_of_mem _ he)
        constructor
        · rw [((ih' _).2 k hkgs).1]
          exact dictGet?_dictInsert_ne _ _ hkg
        · rw [((ih' _).2 k hkgs).2]
          exact dictGet?_dictInsert_ne _ _ hkg
    · have hstep : processFile wl cache oM oP st g = st := by
        by_cases hj : strEndsWith g.1 ".json" = true
        · have hn : g.2 = none := by
            cases hg2 : g.2 with
            | none => rfl
            | some r =>
              exfalso
              apply hw
              unfold wfFile
              rw [hj, hg2]
              rfl
          exact processFile_malformed wl cache oM oP st g hn
        · exact processFile_not_json wl cache oM oP st g hj
      have hnames : fileNames wl cache (g :: gs) = fileNames wl cache gs := by
        rw [fileNames_cons]
        simp [hw]
      rw [hnames] at hnd
      have ih' := ih hnd
      simp only [List.foldl_cons]
      rw [hstep]
      constructor
      · intro f hf r hr hj'
        rcases List.mem_cons.mp hf with hfg | hfs
        · exfalso
          subst hfg
          apply hw
          unfold wfFile
          rw [hj', hr]
          rfl
        · exact (ih' st).1 f hfs r hr hj'
      · intro k hk
        rw [hnames] at hk
        exact (ih' st).2 k hk

theorem scan_some_eq (wl : List String) (cache : List UserCacheEntry)
    (files : List FileEntry) (m p : StatsMap) :
    update_stats_for_all_players wl cache (some files) m p
      = ⟨(files.foldl (processFile wl cache m p) ([], [], 0)).1,
         (files.foldl (processFile wl cache m p) ([], [], 0)).2.1,
         (files.foldl (processFile wl cache m p) ([], [], 0)).2.2⟩ := rfl

/-- Claim C1, counterexample.  The claim states that when no record directory
exists a scan leaves both snapshot mappings exactly as they were.  In the code
the live maps are cleared (lines 239-240) before the directory check, and a
missing directory only skips the rebuild, so a previously non-empty snapshot
comes out empty: with prior snapshot `mining = [("A", 1)]`,
`placement = [("A", 2)]` and no directory, both mappings end up `[]` while
`updatedCount` is indeed 0. -/
theorem C1_counterexample :
    (update_stats_for_all_players [] [] none [("A", 1)] [("A", 2)]).mining
        ≠ [("A", 1)] ∧
    (update_stats_for_all_players [] [] none [("A", 1)] [("A", 2)]).placement
        ≠ [("A", 2)] ∧
    (update_stats_for_all_players [] [] none [("A", 1)] [("A", 2)]).updatedCount
        = 0 := by
  decide

/-- Claim C1, amended.  If no per-player record directory exists, the scan
completes without raising an error to the caller (the operation is total) and
returns `updatedCount == 0`, but both snapshot mappings are left cleared
(empty), not as they were before the call. -/
theorem C1_amended (wl : List String) (cache : List UserCacheEntry)
    (m p : StatsMap) :
    update_stats_for_all_players wl cache none m p = ⟨[], [], 0⟩ := rfl

/-- Claim C2, counterexample.  With the record files and the identifier→name
directory fixed (one record for identifier `u1`, whose cached name is
`alice`), scanning with allow-list `[]` stores the key `alice` while scanning
with allow-list `["ALICE"]` stores the key `ALICE`: the allow-list does change
the stored snapshot mapping, through `get_player_name`'s case-insensitive
canonicalisation (lines 377-382). -/
theorem C2_counterexample :
    (update_stats_for_all_players [] [⟨"u1", "alice"⟩]
        (some [("u1.json", some ⟨[("minecraft:stone", 5)], []⟩)]) [] []).mining
      ≠ (update_stats_for_all_players ["ALICE"] [⟨"u1", "alice"⟩]
        (some [("u1.json", some ⟨[("minecraft:stone", 5)], []⟩)]) [] []).mining := by
  decide

/-- Claim C2, amended.  The allow-list feeds name resolution, so it can change
the keys under which counts are stored; the counts themselves and everything
else in the scan are allow-list independent.  Precisely: for a fixed set of
record files and identifier→name directory, two allow-lists that give every
processed record the same resolved name produce identical scan results
(same snapshot mappings and same return value). -/
theorem C2_amended (wl1 wl2 : List String) (cache : List UserCacheEntry)
    (files : List FileEntry) (m p : StatsMap)
    (h : ∀ f ∈ files, resolvedName wl1 cache f.1 = resolvedName wl2 cache f.1) :
    update_stats_for_all_players wl1 cache (some files) m p
      = update_stats_for_all_players wl2 cache (some files) m p := by
  rw [scan_some_eq, scan_some_eq, foldl_wl_congr cache m p files h]

/-- Witness for C2's amended theorem at a concrete input: the allow-lists `[]`
and `["zzz"]` resolve the one record identically, so the scans agree. -/
theorem C2_witness :
    update_stats_for_all_players [] [⟨"u1", "alice"⟩]
        (some [("u1.json", some ⟨[("minecraft:stone", 5)], []⟩)]) [] []
      = update_stats_for_all_players ["zzz"] [⟨"u1", "alice"⟩]
        (some [("u1.json", some ⟨[("minecraft:stone", 5)], []⟩)]) [] [] :=
  C2_amended [] ["zzz"] [⟨"u1", "alice"⟩]
    [("u1.json", some ⟨[("minecraft:stone", 5)], []⟩)] [] [] (by decide)

/-- Claim C3, counterexample.  The claim states that when the snapshot holds
both an exact-case match and a case-variant of an allow-listed name, the exact
match's count takes priority.  The display filter (lines 404-416) iterates the
snapshot in insertion order and the later entry overwrites: with allow-list
`["Alice"]` and snapshot `[("Alice", 10), ("alice", 5)]` the filtered result
carries the case-variant's count 5, not the exact match's 10. -/
theorem C3_counterexample :
    filterStats ["Alice"] [("Alice", 10), ("alice", 5)] ≠ [("Alice", 10)] ∧
    filterStats ["Alice"] [("Alice", 10), ("alice", 5)] = [("Alice", 5)] := by
  decide

/-- Claim C3, amended.  The two entries are de-duplicated under the
allow-list's canonical name, but the count that survives is that of the entry
iterated later in the snapshot, regardless of whether it matched exactly or
case-insensitively; and if the filtered set is empty, the no-data message is
emitted instead of a leaderboard. -/
theorem C3_amended (w v : String) (c1 c2 : Nat) (wl : List String) (n : Nat)
    (stats : StatsMap) (hwv : v ≠ w) (hlow : strLower v = strLower w) :
    (filterStats [w] [(w, c1), (v, c2)] = [(w, c2)] ∧
     filterStats [w] [(v, c2), (w, c1)] = [(w, c1)]) ∧
    (filterStats wl stats = [] →
      show_mining_stats wl n stats = DisplayOutput.noData ∧
      show_placement_stats wl n stats = DisplayOutput.noData) := by
  have hvm : v ∉ [w] := by simp [hwv]
  have hfind : [w].find? (fun x => decide (strLower x = strLower v)) = some w := by
    simp [List.find?, hlow]
  have h1 : filterStatsStep [w] [] (w, c1) = [(w, c1)] := by
    simp [filterStatsStep, dictInsert]
  have h2 : filterStatsStep [w] [(w, c1)] (v, c2) = [(w, c2)] := by
    simp [filterStatsStep, hvm, hwv, hfind, dictInsert]
  have h3 : filterStatsStep [w] [] (v, c2) = [(w, c2)] := by
    simp [filterStatsStep, hvm, hwv, hfind, dictInsert]
  have h4 : filterStatsStep [w] [(w, c2)] (w, c1) = [(w, c1)] := by
    simp [filterStatsStep, dictInsert]
  refine ⟨⟨?_, ?_⟩, ?_⟩
  · rw [filterStats, List.foldl_cons, h1, List.foldl_cons, h2, List.foldl_nil]
  · rw [filterStats, List.foldl_cons, h3, List.foldl_cons, h4, List.foldl_nil]
  · intro h
    constructor <;>
      simp [show_mining_stats, show_placement_stats, renderBoard, h]

/-- Witness for C3's amended theorem at a concrete input: allow-list
`["Alice"]`, snapshot `[("Alice", 10), ("alice", 5)]` filters to
`[("Alice", 5)]`, and an empty filtered set yields the no-data message. -/
theorem C3_witness :
    filterStats ["Alice"] [("Alice", 10), ("alice", 5)] = [("Alice", 5)] ∧
    show_mining_stats ["Bob"] 10 [] = DisplayOutput.noData :=
  ⟨((C3_amended "Alice" "alice" 10 5 ["Bob"] 10 [] (by decide) (by decide)).1).1,
   ((C3_amended "Alice" "alice" 10 5 ["Bob"] 10 [] (by decide) (by decide)).2
      (by decide)).1⟩

/-- Claim C4, counterexample.  With fixed record files, whitelist and
directory, two records (`aaaaaaaa-1.json`, `aaaaaaaa-2.json`) both resolve to
the fallback name `Player_aaaaaaaa` but carry different mined counts, so on a
second scan the first record's counts differ from the snapshot the collision
left behind, and the second run returns `updatedCount = 1`, not 0. -/
theorem C4_counterexample :
    (update_stats_for_all_players [] []
        (some [("aaaaaaaa-1.json", some ⟨[("minecraft:stone", 10)], []⟩),
               ("aaaaaaaa-2.json", some ⟨[("minecraft:stone", 20)], []⟩)])
        (update_stats_for_all_players [] []
          (some [("aaaaaaaa-1.json", some ⟨[("minecraft:stone", 10)], []⟩),
                 ("aaaaaaaa-2.json", some ⟨[("minecraft:stone", 20)], []⟩)]) [] []).mining
        (update_stats_for_all_players [] []
          (some [("aaaaaaaa-1.json", some ⟨[("minecraft:stone", 10)], []⟩),
                 ("aaaaaaaa-2.json", some ⟨[("minecraft:stone", 20)], []⟩)]) [] []).placement).updatedCount
      = 1 := by
  decide

/-- Claim C4, amended.  Running the scan twice on fixed inputs always yields
snapshot mappings identical to the first run's (the rebuilt maps do not depend
on the prior snapshot); and provided no two processed records resolve to the
same stored name, the second run additionally returns `updatedCount == 0`. -/
theorem C4_amended (wl : List String) (cache : List UserCacheEntry)
    (files : List FileEntry) (m p : StatsMap) :
    ((update_stats_for_all_players wl cache (some files)
        (update_stats_for_all_players wl cache (some files) m p).mining
        (update_stats_for_all_players wl cache (some files) m p).placement).mining
      = (update_stats_for_all_players wl cache (some files) m p).mining ∧
     (update_stats_for_all_players wl cache (some files)
        (update_stats_for_all_players wl cache (some files) m p).mining
        (update_stats_for_all_players wl cache (some files) m p).placement).placement
      = (update_stats_for_all_players wl cache (some files) m p).placement) ∧
    ((fileNames wl cache files).Nodup →
      (update_stats_for_all_players wl cache (some files)
        (update_stats_for_all_players wl cache (some files) m p).mining
        (update_stats_for_all_players wl cache (some files) m p).placement).updatedCount
        = 0) := by
  constructor
  · exact ⟨(foldl_maps_indep wl cache _ _ m p files [] [] 0 0).1,
      (foldl_maps_indep wl cache _ _ m p files [] [] 0 0).2⟩
  · intro hnd
    have hchar := (foldl_lookup_char wl cache m p files hnd ([], [], 0)).1
    have h : ∀ f ∈ files, ∀ r, f.2 = some r → strEndsWith f.1 ".json" = true →
        dictGetSentinel (update_stats_for_all_players wl cache (some files) m p).mining
          (resolvedName wl cache f.1) = (mineCount r : Int) ∧
        dictGetSentinel (update_stats_for_all_players wl cache (some files) m p).placement
          (resolvedName wl cache f.1) = (placeCount r : Int) := by
      intro f hf r hr hj
      obtain ⟨hm, hp⟩ := hchar f hf r hr hj
      constructor
      · unfold dictGetSentinel
        rw [show dictGet?
            (update_stats_for_all_players wl cache (some files) m p).mining
            (resolvedName wl cache f.1) = some (mineCount r) from hm]
      · unfold dictGetSentinel
        rw [show dictGet?
            (update_stats_for_all_players wl cache (some files) m p).placement
            (resolvedName wl cache f.1) = some (placeCount r) from hp]
    exact foldl_count_zero wl cache _ _ files h ([], [], 0)

/-- Witness for C4's amended theorem at a concrete input: one record, hence
no name collision, and the second scan returns `updatedCount = 0`. -/
theorem C4_witness :
    (update_stats_for_all_players [] []
        (some [("u1.json", some ⟨[("minecraft:stone", 3)], []⟩)])
        (update_stats_for_all_players [] []
          (some [("u1.json", some ⟨[("minecraft:stone", 3)], []⟩)]) [] []).mining
        (update_stats_for_all_players [] []
          (some [("u1.json", some ⟨[("minecraft:stone", 3)], []⟩)]) [] []).placement).updatedCount
      = 0 :=
  (C4_amended [] [] [("u1.json", some ⟨[("minecraft:stone", 3)], []⟩)] [] []).2
    (by decide)

/-- Claim C5, confirmed.  Name resolution precedence: a directory name that is
exactly allow-listed is returned as-is; otherwise the first case-insensitive
allow-list match returns the allow-list's canonical form; otherwise the
directory name is returned unchanged; an identifier found in no directory
source gets the deterministic label `Player_` plus the identifier's first 8
characters.  The resolver is a total function, so it never fails. -/
theorem C5_resolution (wl : List String) (cache : List UserCacheEntry)
    (uuid name : String) :
    (lookupName cache (cleanUuid uuid) = some name →
      ((name ∈ wl → get_player_name wl cache uuid = name) ∧
       (name ∉ wl →
         (∀ w, wl.find? (fun x => decide (strLower x = strLower name)) = some w →
            get_player_name wl cache uuid = w) ∧
         (wl.find? (fun x => decide (strLower x = strLower name)) = none →
            get_player_name wl cache uuid = name)))) ∧
    (lookupName cache (cleanUuid uuid) = none →
      get_player_name wl cache uuid = "Player_" ++ strTake uuid 8) := by
  constructor
  · intro hl
    constructor
    · intro hmem
      unfold get_player_name
      rw [hl]
      simp [hmem]
    · intro hnm
      constructor
      · intro w hw
        unfold get_player_name
        rw [hl]
        simp [hnm, hw]
      · intro hw
        unfold get_player_name
        rw [hl]
        simp [hnm, hw]
  · intro hl
    unfold get_player_name
    rw [hl]
    rfl

/-- Witness for C5 at concrete inputs, one per precedence branch: a
case-insensitive match canonicalised by the allow-list, an exact match
returned as-is, an unmatched directory name returned unchanged, and the
fallback label for an identifier absent from the directory. -/
theorem C5_witness :
    get_player_name ["Alice"] [⟨"u1", "alice"⟩] "u1" = "Alice" ∧
    get_player_name ["Bob"] [⟨"u2", "Bob"⟩] "u2" = "Bob" ∧
    get_player_name ["Bob"] [⟨"u3", "Carl"⟩] "u3" = "Carl" ∧
    get_player_name [] [] "aaaaaaaa-1" = "Player_" ++ strTake "aaaaaaaa-1" 8 :=
  ⟨(((C5_resolution ["Alice"] [⟨"u1", "alice"⟩] "u1" "alice").1 (by decide)).2
      (by decide)).1 "Alice" (by decide),
   ((C5_resolution ["Bob"] [⟨"u2", "Bob"⟩] "u2" "Bob").1 (by decide)).1 (by decide),
   (((C5_resolution ["Bob"] [⟨"u3", "Carl"⟩] "u3" "Carl").1 (by decide)).2
      (by decide)).2 (by decide),
   (C5_resolution [] [] "aaaaaaaa-1" "x").2 (by decide)⟩

/-- Claim C6, confirmed.  The mined count is the unfiltered sum of the counts
under the `mined` category; the placed count is the sum of the counts under
the `used` category restricted to identifiers with a namespace separator and
none of the excluded substrings; `minecraft:bucket` contributes 0 and
`minecraft:stone` its full count. -/
theorem C6_extraction (r : StatRecord) (n : Nat) :
    mineCount r = (r.mined.map Prod.snd).sum ∧
    placeCount r = ((r.used.filter (fun p => isBlockEntry p.1)).map Prod.snd).sum ∧
    placeCount ⟨[], [("minecraft:bucket", n)]⟩ = 0 ∧
    placeCount ⟨[], [("minecraft:stone", n)]⟩ = n := by
  refine ⟨?_, ?_, ?_, ?_⟩
  · simp [mineCount, foldl_add_eq_sum]
  · simp [placeCount, foldl_filter_add_eq_sum]
  · simp [placeCount, show isBlockEntry "minecraft:bucket" = false from by decide]
  · simp [placeCount, show isBlockEntry "minecraft:stone" = true from by decide]

/-- Claim C7, confirmed.  A scan over files of which some are malformed equals
the scan over the well-formed files alone (each malformed record is a no-op:
it contributes no key and no count change), while every well-formed `.json`
record's resolved name is present in both resulting snapshot mappings. -/
theorem C7_malformed_isolated (wl : List String) (cache : List UserCacheEntry)
    (files : List FileEntry) (m p : StatsMap) :
    update_stats_for_all_players wl cache (some files) m p
      = update_stats_for_all_players wl cache
          (some (files.filter (fun f => f.2.isSome))) m p ∧
    (∀ f ∈ files, strEndsWith f.1 ".json" = true → ∀ r, f.2 = some r →
      (dictGet? ((update_stats_for_all_players wl cache (some files) m p).mining)
        (resolvedName wl cache f.1)).isSome ∧
      (dictGet? ((update_stats_for_all_players wl cache (some files) m p).placement)
        (resolvedName wl cache f.1)).isSome) := by
  constructor
  · rw [scan_some_eq, scan_some_eq, foldl_skip_malformed wl cache m p files]
  · intro f hf hj r hr
    exact foldl_mem_inserted wl cache m p files ([], [], 0) f hf hj r hr

/-- Witness for C7 at a concrete input: one malformed and one well-formed
record; the scan equals the scan over the well-formed file alone and the
well-formed record's name is present in the mining snapshot. -/
theorem C7_witness :
    update_stats_for_all_players [] [] (some [("bad.json", none),
        ("u1.json", some ⟨[("minecraft:stone", 2)], []⟩)]) [] []
      = update_stats_for_all_players [] []
          (some ([("bad.json", none),
            ("u1.json", some ⟨[("minecraft:stone", 2)], []⟩)].filter
              (fun f => f.2.isSome))) [] [] ∧
    (dictGet? ((update_stats_for_all_players [] [] (some [("bad.json", none),
        ("u1.json", some ⟨[("minecraft:stone", 2)], []⟩)]) [] []).mining)
      (resolvedName [] [] "u1.json")).isSome :=
  ⟨(C7_malformed_isolated [] []
      [("bad.json", none), ("u1.json", some ⟨[("minecraft:stone", 2)], []⟩)] [] []).1,
   ((C7_malformed_isolated [] []
      [("bad.json", none), ("u1.json", some ⟨[("minecraft:stone", 2)], []⟩)] [] []).2
      ("u1.json", some ⟨[("minecraft:stone", 2)], []⟩) (by decide) (by decide)
      ⟨[("minecraft:stone", 2)], []⟩ rfl).1⟩

/-- Claim C8, confirmed.  Persisting a snapshot (a pair of name→count
mappings) as the two-key JSON object and loading it back yields exactly the
snapshot: `load(persist(s)) == s`. -/
theorem C8_roundtrip (m p : StatsMap) :
    load_stats (some (save_stats m p)) = (m, p) := by
  have hne : ("mining" : String) ≠ "placement" := by decide
  simp [load_stats, save_stats, lookupField, hne]

/-- Claim C9, confirmed.  After any scan the mining and placement mappings
have exactly the same keys (in the same order): each processed record inserts
into both under the same resolved name, and both start cleared. -/
theorem C9_key_sets (wl : List String) (cache : List UserCacheEntry)
    (statsDir : Option (List FileEntry)) (m p : StatsMap) :
    ((update_stats_for_all_players wl cache statsDir m p).mining).map Prod.fst
      = ((update_stats_for_all_players wl cache statsDir m p).placement).map Prod.fst ∧
    ∀ n, ((∃ c, (n, c) ∈ (update_stats_for_all_players wl cache statsDir m p).mining)
        ↔ (∃ c, (n, c) ∈ (update_stats_for_all_players wl cache statsDir m p).placement)) := by
  have hkeys : ((update_stats_for_all_players wl cache statsDir m p).mining).map Prod.fst
      = ((update_stats_for_all_players wl cache statsDir m p).placement).map Prod.fst := by
    cases statsDir with
    | none => rfl
    | some files => exact foldl_keys_eq wl cache m p files ([], [], 0) rfl
  refine ⟨hkeys, fun n => ?_⟩
  rw [← mem_keys_iff, ← mem_keys_iff, hkeys]

/-- Claim C10, confirmed.  `get_player_name` returns a non-empty string on
every input (its fallback label starts with `Player_` and any name it passes
through is non-empty), so the aggregator's falsy-name substitution branch
never changes the result: the stored name is always the resolver's answer. -/
theorem C10_resolver_nonempty (wl : List String) (cache : List UserCacheEntry)
    (uuid : String) :
    get_player_name wl cache uuid ≠ "" ∧
    aggregatorName wl cache uuid = get_player_name wl cache uuid := by
  refine ⟨get_player_name_ne_empty wl cache uuid, ?_⟩
  unfold aggregatorName
  simp [get_player_name_ne_empty wl cache uuid]

end MPS
